import Mathlib

/-!
Verification of `doppio/commands/spa_generator.py` (class `SPAGenerator`).

The file is a shallow embedding of the text-transforming core of the
generator.  File contents are modelled as `List Char`.  The regular
expression `website_route_rules\s?=\s?\[(.+)\]` used by
`add_routing_rule_to_hooks`, Python's `re.sub` / `re.search` scanning
behaviour and `str.replace` are translated into executable scanning
functions below.  The filesystem-facing steps (`update_package_json`,
`link_controller_files`, `generate_spa`) are modelled as pure state
transformers over small record types; steps whose effect is produced by
external processes (yarn / npm / vite scaffolding) are abstracted as
arbitrary state transformers passed in as parameters.
-/

set_option autoImplicit false
set_option maxRecDepth 100000

/-- ASCII whitespace, as matched by the regex class `\s` on the inputs in
scope (the Unicode extension of `\s` is not modelled). -/
def pyIsSpace (c : Char) : Bool :=
  c == ' ' || c == '\t' || c == '\n' || c == '\r' || c == '\x0b' || c == '\x0c'

/-- `isPre p s` is true when the list `p` is a prefix of `s`. -/
def isPre : List Char → List Char → Bool
  | [], _ => true
  | _ :: _, [] => false
  | p :: ps, c :: cs => if p = c then isPre ps cs else false

/-- Strip an exact literal from the front of `s`; `none` if it does not
start with the literal. -/
def stripLit : List Char → List Char → Option (List Char)
  | [], s => some s
  | _ :: _, [] => none
  | p :: ps, c :: cs => if p = c then stripLit ps cs else none

/-- Consume the single optional whitespace character admitted by `\s?`.
The regex continues with a non-whitespace literal (`=` or `[`), so
consuming one leading whitespace character when present is exactly the
backtracking-correct behaviour. -/
def dropOptSpace : List Char → List Char
  | [] => []
  | c :: cs => if pyIsSpace c then cs else c :: cs

/-- The current line: longest prefix without a newline.  The `.` of the
regex does not match `\n`, so a match group never extends past this. -/
def takeLine : List Char → List Char
  | [] => []
  | c :: cs => if c = '\n' then [] else c :: takeLine cs

/-- Index of the last occurrence of `c`. -/
def lastIdxOf (c : Char) : List Char → Option Nat
  | [] => none
  | a :: as =>
    match lastIdxOf c as with
    | some j => some (j + 1)
    | none => if a = c then some 0 else none

/-- After the literal `[`, the greedy group `(.+)` followed by `]` matches
up to the last `]` of the current line, requiring at least one character
in the group.  Returns the group and the remainder of the text after the
closing bracket. -/
def grabGroup (t : List Char) : Option (List Char × List Char) :=
  let line := takeLine t
  match lastIdxOf ']' line with
  | none => none
  | some j =>
    if 1 ≤ j then some (line.take j, line.drop (j + 1) ++ t.drop line.length)
    else none

/-- The variable name targeted by the pattern. -/
def NAME : List Char := "website_route_rules".data

/-- The placeholder `\x7brule\x7d` used by the hook-patching template. -/
def RB : List Char := "{rule}".data

/-- One attempted match of `website_route_rules\s?=\s?\[(.+)\]` at the
head of `s`: the literal name, at most one whitespace, `=`, at most one
whitespace, `[`, then the greedy single-line group and `]`.  Returns the
captured group and the rest of the text after the match. -/
def matchDecl (s : List Char) : Option (List Char × List Char) :=
  match stripLit NAME s with
  | none => none
  | some r1 =>
    match stripLit ['='] (dropOptSpace r1) with
    | none => none
    | some r2 =>
      match stripLit ['['] (dropOptSpace r2) with
      | none => none
      | some r3 => grabGroup r3

/-- Fuelled left-to-right scan of `re.sub`: at each position try the
pattern; on a match emit the template
`website_route_rules = [\x7brule\x7d, \1]` and continue after the match,
otherwise keep the character.  Fuel bounds the recursion; it is
initialised to the length of the text, which suffices because a match
consumes at least one character. -/
def subScanF : Nat → List Char → List Char
  | _, [] => []
  | 0, s => s
  | f + 1, c :: cs =>
    match matchDecl (c :: cs) with
    | some (g, rest) =>
      "website_route_rules = [{rule}, ".data ++ g ++ "]".data ++ subScanF f rest
    | none => c :: subScanF f cs

/-- `pattern.sub(r"website_route_rules = [\x7brule\x7d, \1]", hooks)`. -/
def subScan (s : List Char) : List Char := subScanF s.length s

/-- `pattern.search(hooks)`: does the pattern match at some position? -/
def searchDecl : List Char → Bool
  | [] => false
  | c :: cs => (matchDecl (c :: cs)).isSome || searchDecl cs

/-- Fuelled `str.replace`: replace every non-overlapping occurrence of
`pat`, scanning left to right; replacements are not rescanned. -/
def pyReplaceF (pat repl : List Char) : Nat → List Char → List Char
  | _, [] => []
  | 0, s => s
  | f + 1, c :: cs =>
    if isPre pat (c :: cs) then repl ++ pyReplaceF pat repl f (List.drop pat.length (c :: cs))
    else c :: pyReplaceF pat repl f cs

/-- `s.replace(pat, repl)` for a non-empty `pat`. -/
def pyReplace (pat repl s : List Char) : List Char := pyReplaceF pat repl s.length s

/-- Number of positions of `s` at which `pat` occurs (as a prefix of the
suffix starting there). -/
def countSub (pat : List Char) : List Char → Nat
  | [] => 0
  | c :: cs => (if isPre pat (c :: cs) = true then 1 else 0) + countSub pat cs

/-- Does `pat` occur somewhere in `s`? -/
def hasSub (pat : List Char) : List Char → Bool
  | [] => isPre pat []
  | c :: cs => isPre pat (c :: cs) || hasSub pat cs

/-- The textual routing-rule record built from the SPA name:
`\x7b'from_route': '/<spa>/<path:app_path>', 'to_route': '<spa>'\x7d`. -/
def ruleText (spa : List Char) : List Char :=
  "\x7b\x27from_route\x27: \x27/".data ++ spa
    ++ "/<path:app_path>\x27, \x27to_route\x27: \x27".data ++ spa ++ "\x27\x7d".data

/-- Lines 149-163 of the source with the rule record abstracted: run the
substitution, fall back to appending a fresh declaration when the pattern
is absent, then substitute the placeholder by the rule record. -/
def injectCore (rule hooks : List Char) : List Char :=
  let rules := subScan hooks
  let rules :=
    if searchDecl hooks then rules
    else hooks ++ "\nwebsite_route_rules = [{rule},]".data
  pyReplace RB rule rules

/-- `add_routing_rule_to_hooks` as a text-to-text transform: the rule
record is built from the SPA name and injected. -/
def add_routing_rule_to_hooks (spa hooks : List Char) : List Char :=
  injectCore (ruleText spa) hooks

/-- Split at the first single quote: the part before it and the part
after it. -/
def splitAtQuote : List Char → Option (List Char × List Char)
  | [] => none
  | c :: cs =>
    if c = '\x27' then some ([], cs)
    else
      match splitAtQuote cs with
      | none => none
      | some (x, y) => some (c :: x, y)

/-- Parse one routing-rule record
`\x7b'from_route': '<f>', 'to_route': '<t>'\x7d` at the head of the text;
returns the two field values and the remaining text. -/
def parseRecord (s : List Char) : Option ((List Char × List Char) × List Char) :=
  match stripLit ("\x7b\x27from_route\x27: \x27".data) s with
  | none => none
  | some r1 =>
    match splitAtQuote r1 with
    | none => none
    | some (f, r2) =>
      match stripLit (", \x27to_route\x27: \x27".data) r2 with
      | none => none
      | some r3 =>
        match splitAtQuote r3 with
        | none => none
        | some (t, r4) =>
          match r4 with
          | '\x7d' :: rest => some ((f, t), rest)
          | _ => none

/-- No occurrence of `pat` starts inside the front segment `x` of
`x ++ y` (occurrences may continue into `y`). -/
def frontFree (pat x y : List Char) : Prop :=
  ∀ i, i < x.length → isPre pat ((x ++ y).drop i) = false

/-- No occurrence of `pat` starts anywhere in `s`. -/
def allFree (pat s : List Char) : Prop :=
  ∀ i, isPre pat (s.drop i) = false

/-- A `\s?` witness: empty, or one whitespace character. -/
def optSp : List Char → Bool
  | [] => true
  | [c] => pyIsSpace c
  | _ => false

/-- The scripts table of a package manifest (a JSON object restricted to
what the generator touches). -/
structure Manifest where
  scripts : List (List Char × List Char)
deriving DecidableEq

/-- `data["scripts"][k] = v`: replace the binding of `k`, or add it. -/
def setKey (k v : List Char) : List (List Char × List Char) → List (List Char × List Char)
  | [] => [(k, v)]
  | (k0, v0) :: rest => if k0 = k then (k, v) :: rest else (k0, v0) :: setKey k v rest

/-- The build command written into the SPA manifest. -/
def buildCmd (app spa : List Char) : List Char :=
  "vite build --base=/assets/".data ++ app ++ "/".data ++ spa
    ++ "/ && yarn copy-html-entry".data

/-- The copy-html-entry command written into the SPA manifest. -/
def copyHtmlCmd (app spa : List Char) : List Char :=
  "cp ../".data ++ app ++ "/public/".data ++ spa ++ "/index.html ../".data
    ++ app ++ "/www/".data ++ spa ++ ".html".data

/-- The dev convenience script written into the app manifest. -/
def devCmd (spa : List Char) : List Char :=
  "cd ".data ++ spa ++ " && yarn dev".data

/-- The build convenience script written into the app manifest. -/
def appBuildCmd (spa : List Char) : List Char :=
  "cd ".data ++ spa ++ " && yarn build".data

/-- The message printed when the SPA `package.json` is missing. -/
def pkgMissingMsg : List Char :=
  "package.json not found. Please manulally update the build command.".data

/-- The message printed when the scaffolded `src/main.js` is missing. -/
def mainJsMissingMsg : List Char := "src/main.js not found!".data

/-- The state touched by the generator: the scaffolded `src/main.js`,
the two package manifests, the hooks file and the echoed messages. -/
structure World where
  mainJs : Option (List Char)
  spaPkg : Option Manifest
  appPkg : Option Manifest
  hooks : List Char
  log : List (List Char)
deriving DecidableEq

/-- `update_package_json`: early return with a message when the SPA
manifest is missing; otherwise overwrite the two build scripts, and when
the app-level manifest does not exist, create it (`npm init --yes`
produces `npmInit`, an external input) and add the convenience scripts. -/
def update_package_json (app spa : List Char) (npmInit : Manifest) (w : World) : World :=
  match w.spaPkg with
  | none => { w with log := w.log ++ [pkgMissingMsg] }
  | some data =>
    let data : Manifest :=
      ⟨setKey ("copy-html-entry".data) (copyHtmlCmd app spa)
        (setKey ("build".data) (buildCmd app spa) data.scripts)⟩
    let w := { w with spaPkg := some data }
    match w.appPkg with
    | some _ => w
    | none =>
      let d2 : Manifest :=
        ⟨setKey ("build".data) (appBuildCmd spa)
          (setKey ("dev".data) (devCmd spa) npmInit.scripts)⟩
      { w with appPkg := some d2 }

/-- `link_controller_files`: when `src/main.js` exists, overwrite it with
the boilerplate (prefixed by the css import when tailwind is enabled);
otherwise echo a message and return without touching anything. -/
def link_controller_files (tailwind : Bool) (boiler : List Char) (w : World) : World :=
  match w.mainJs with
  | some _ =>
    let content := if tailwind then ("import \x27./index.css\x27;\n".data) ++ boiler else boiler
    { w with mainJs := some content }
  | none => { w with log := w.log ++ [mainJsMissingMsg] }

/-- `generate_spa`: the fixed, unconditional step sequence.  Steps whose
effect comes from external processes or is plain boilerplate file
emission (`initialize_vue_vite_project`, `setup_proxy_options`,
`setup_vue_router`, `create_vue_files`, `create_www_directory`,
`setup_tailwindcss`) are abstracted as state transformers; the final
informational echoes, which embed an absolute filesystem path, are not
modelled. -/
def generate_spa (app spa : List Char) (tailwind : Bool) (boiler : List Char)
    (npmInit : Manifest)
    (initStep proxyStep routerStep vueStep wwwStep tailwindStep : World → World)
    (w : World) : World :=
  let w := { w with log := w.log ++ ["Generating spa...".data] }
  let w := initStep w
  let w := link_controller_files tailwind boiler w
  let w := proxyStep w
  let w := routerStep w
  let w := vueStep w
  let w := update_package_json app spa npmInit w
  let w := wwwStep w
  let w := if tailwind then tailwindStep w else w
  { w with hooks := add_routing_rule_to_hooks spa w.hooks }

/-! ### Basic facts about prefixes, drops and occurrence scanning -/

theorem isPre_iff (p s : List Char) : isPre p s = true ↔ ∃ t, s = p ++ t := by
  induction p generalizing s with
  | nil => simp [isPre]
  | cons x xs ih =>
    cases s with
    | nil => simp [isPre]
    | cons c cs =>
      by_cases h : x = c
      · subst h
        simp [isPre, ih]
      · have h2 : ¬ c = x := fun hh => h hh.symm
        simp [isPre, h, h2]

theorem isPre_self_append (p t : List Char) : isPre p (p ++ t) = true :=
  (isPre_iff p (p ++ t)).2 ⟨t, rfl⟩

theorem isPre_length_le {p s : List Char} (h : isPre p s = true) : p.length ≤ s.length := by
  obtain ⟨t, rfl⟩ := (isPre_iff p s).1 h
  simp

theorem isPre_head {p : Char} {ps s : List Char} (h : isPre (p :: ps) s = true) :
    s.head? = some p := by
  obtain ⟨t, rfl⟩ := (isPre_iff _ s).1 h
  rfl

theorem isPre_ext {pat s : List Char} (y : List Char) (h : isPre pat s = true) :
    isPre pat (s ++ y) = true := by
  obtain ⟨t, rfl⟩ := (isPre_iff _ _).1 h
  rw [List.append_assoc]
  exact isPre_self_append _ _

theorem isPre_nil_eq {pat : List Char} (h : isPre pat [] = true) : pat = [] := by
  obtain ⟨t, ht⟩ := (isPre_iff _ _).1 h
  exact (List.append_eq_nil.1 ht.symm).1

theorem append_split {a b c d : List Char} (h : a ++ b = c ++ d) (hl : c.length ≤ a.length) :
    ∃ m, a = c ++ m ∧ d = m ++ b := by
  induction c generalizing a with
  | nil => exact ⟨a, rfl, by simpa using h.symm⟩
  | cons x xs ih =>
    cases a with
    | nil => simp at hl
    | cons y ys =>
      injection h with h1 h2
      subst h1
      obtain ⟨m, hm1, hm2⟩ := ih h2 (by simpa using hl)
      exact ⟨m, by rw [hm1]; rfl, hm2⟩

theorem head?_drop (l : List Char) (i : Nat) : (l.drop i).head? = l.get? i := by
  induction l generalizing i with
  | nil => simp
  | cons c cs ih =>
    cases i with
    | zero => rfl
    | succ j => exact ih j

theorem get?_mem' {l : List Char} {i : Nat} {c : Char} (h : l.get? i = some c) : c ∈ l := by
  induction l generalizing i with
  | nil => simp at h
  | cons x xs ih =>
    cases i with
    | zero =>
      simp at h
      simp [h]
    | succ j => exact List.mem_cons_of_mem _ (ih h)

theorem drop_app_le {a : List Char} (b : List Char) {i : Nat} (h : i ≤ a.length) :
    (a ++ b).drop i = a.drop i ++ b := by
  induction a generalizing i with
  | nil =>
    simp at h
    simp [h]
  | cons x xs ih =>
    cases i with
    | zero => rfl
    | succ j => simpa using ih (by simpa using h)

theorem drop_app_ge {a : List Char} (b : List Char) {i : Nat} (h : a.length ≤ i) :
    (a ++ b).drop i = b.drop (i - a.length) := by
  induction a generalizing i with
  | nil => simp
  | cons x xs ih =>
    cases i with
    | zero => simp at h
    | succ j => simpa using ih (by simpa using h)

/-! ### `frontFree` / `allFree`: absence of pattern occurrences -/

theorem frontFree_tail {pat : List Char} {c : Char} {cs y : List Char}
    (h : frontFree pat (c :: cs) y) : frontFree pat cs y :=
  fun i hi => h (i + 1) (by simpa using Nat.succ_lt_succ hi)

theorem allFree_tail {pat : List Char} {c : Char} {cs : List Char}
    (h : allFree pat (c :: cs)) : allFree pat cs :=
  fun i => h (i + 1)

theorem hasSub_false_allFree {pat s : List Char} (h : hasSub pat s = false) : allFree pat s := by
  induction s with
  | nil =>
    intro i
    cases i <;> exact h
  | cons c cs ih =>
    simp only [hasSub, Bool.or_eq_false_iff] at h
    intro i
    cases i with
    | zero => exact h.1
    | succ j => exact ih h.2 j

theorem allFree_hasSub_false {pat s : List Char} (h : allFree pat s) : hasSub pat s = false := by
  induction s with
  | nil => exact h 0
  | cons c cs ih =>
    simp only [hasSub, Bool.or_eq_false_iff]
    exact ⟨h 0, ih (allFree_tail h)⟩

theorem hasSub_of_isPre_drop {pat x : List Char} (i : Nat)
    (h : isPre pat (x.drop i) = true) : hasSub pat x = true := by
  induction x generalizing i with
  | nil =>
    cases i <;> exact h
  | cons c cs ih =>
    cases i with
    | zero =>
      rw [List.drop_zero] at h
      simp [hasSub, h]
    | succ j => simp [hasSub, ih j h]

theorem hasSub_append_left {pat x : List Char} (y : List Char) (h : hasSub pat x = true) :
    hasSub pat (x ++ y) = true := by
  induction x with
  | nil =>
    have hp : pat = [] := isPre_nil_eq h
    subst hp
    cases y with
    | nil => rfl
    | cons d ds => simp [hasSub, isPre]
  | cons c cs ih =>
    simp only [hasSub, Bool.or_eq_true] at h
    cases h with
    | inl h1 =>
      have h3 := isPre_ext y h1
      rw [List.cons_append] at h3
      simp [hasSub, h3]
    | inr h2 => simp [hasSub, ih h2]

theorem hasSub_append_right {pat : List Char} (x : List Char) {y : List Char}
    (h : hasSub pat y = true) : hasSub pat (x ++ y) = true := by
  induction x with
  | nil => simpa using h
  | cons c cs ih => simp [hasSub, ih]

theorem hasSub_false_split {pat x y : List Char} (h : hasSub pat (x ++ y) = false) :
    hasSub pat x = false ∧ hasSub pat y = false := by
  constructor
  · cases hb : hasSub pat x with
    | false => rfl
    | true => rw [hasSub_append_left y hb] at h; simp at h
  · cases hb : hasSub pat y with
    | false => rfl
    | true => rw [hasSub_append_right x hb] at h; simp at h

theorem frontFree_of_head_notin {p : Char} {ps x y : List Char} (hx : p ∉ x) :
    frontFree (p :: ps) x y := by
  intro i hi
  cases hb : isPre (p :: ps) ((x ++ y).drop i) with
  | false => rfl
  | true =>
    exfalso
    have hh := isPre_head hb
    rw [head?_drop] at hh
    rw [List.get?_append hi] at hh
    exact hx (get?_mem' hh)

theorem frontFree_nil_right {pat x : List Char} (hx : hasSub pat x = false) :
    frontFree pat x [] := by
  intro i hi
  simpa using hasSub_false_allFree hx i

theorem frontFree_of_hasSub_false {p hd : Char} {ps x y : List Char}
    (hx : hasSub (p :: ps) x = false) (hy : y.head? = some hd) (hmem : hd ∉ ps) :
    frontFree (p :: ps) x y := by
  intro i hi
  cases hb : isPre (p :: ps) ((x ++ y).drop i) with
  | false => rfl
  | true =>
    exfalso
    rw [drop_app_le y (le_of_lt hi)] at hb
    obtain ⟨t, ht⟩ := (isPre_iff _ _).1 hb
    have hk1 : 1 ≤ (x.drop i).length := by
      simp only [List.length_drop]
      omega
    by_cases hcase : (p :: ps).length ≤ (x.drop i).length
    · obtain ⟨m, hm1, _⟩ := append_split ht hcase
      have hpre : isPre (p :: ps) (x.drop i) = true := by
        rw [hm1]
        exact isPre_self_append _ _
      have h2 := hasSub_of_isPre_drop i hpre
      rw [hx] at h2
      exact Bool.false_ne_true h2
    · have hklt : (x.drop i).length < (p :: ps).length := lt_of_not_ge hcase
      obtain ⟨m, hm1, hm2⟩ := append_split ht.symm (le_of_lt hklt)
      cases m with
      | nil =>
        rw [List.append_nil] at hm1
        rw [← hm1] at hklt
        exact lt_irrefl _ hklt
      | cons mc mrest =>
        have hyhead : y.head? = some mc := by rw [hm2]; rfl
        have hc : mc = hd := by
          rw [hy] at hyhead
          injection hyhead with hh
          exact hh.symm
        subst hc
        have h1 : ((x.drop i ++ (mc :: mrest)).drop (x.drop i).length).head? = some mc := by
          rw [drop_app_ge _ (le_refl _)]
          simp
        rw [← hm1, head?_drop] at h1
        cases hk : (x.drop i).length with
        | zero => omega
        | succ k2 =>
          rw [hk] at h1
          simp only [List.get?] at h1
          exact hmem (get?_mem' h1)

/-! ### Unfolding equations for the scanners -/

theorem stripLit_sound {p s r : List Char} (h : stripLit p s = some r) : s = p ++ r := by
  induction p generalizing s with
  | nil =>
    simp only [stripLit, Option.some.injEq] at h
    simpa using h
  | cons x xs ih =>
    cases s with
    | nil => exact absurd h (by simp [stripLit])
    | cons c cs =>
      by_cases hxc : x = c
      · subst hxc
        rw [stripLit, if_pos rfl] at h
        rw [List.cons_append, ← ih h]
      · rw [stripLit, if_neg hxc] at h
        exact absurd h (by simp)

theorem stripLit_self (p s : List Char) : stripLit p (p ++ s) = some s := by
  induction p with
  | nil => rfl
  | cons x xs ih => simpa [stripLit] using ih

theorem dropOptSpace_length (s : List Char) : (dropOptSpace s).length ≤ s.length := by
  cases s with
  | nil => simp [dropOptSpace]
  | cons c cs =>
    by_cases h : pyIsSpace c = true
    · simp [dropOptSpace, h]
    · simp [dropOptSpace, h]

theorem takeLine_length_le (t : List Char) : (takeLine t).length ≤ t.length := by
  induction t with
  | nil => simp [takeLine]
  | cons c cs ih =>
    by_cases h : c = '\n'
    · simp [takeLine, h]
    · simp only [takeLine, if_neg h, List.length_cons]
      omega

theorem lastIdxOf_lt {c : Char} {l : List Char} {j : Nat} (h : lastIdxOf c l = some j) :
    j < l.length := by
  induction l generalizing j with
  | nil => exact absurd h (by simp [lastIdxOf])
  | cons a as ih =>
    rw [lastIdxOf] at h
    cases hrec : lastIdxOf c as with
    | some j2 =>
      rw [hrec] at h
      injection h with h1
      subst h1
      exact Nat.succ_lt_succ (ih hrec)
    | none =>
      rw [hrec] at h
      by_cases hac : a = c
      · rw [if_pos hac] at h
        injection h with h1
        subst h1
        simp
      · rw [if_neg hac] at h
        exact absurd h (by simp)

theorem grabGroup_length {t g r : List Char} (h : grabGroup t = some (g, r)) :
    r.length < t.length := by
  rw [grabGroup] at h
  cases hL : lastIdxOf ']' (takeLine t) with
  | none => simp [hL] at h
  | some j =>
    simp only [hL] at h
    by_cases hj : 1 ≤ j
    · rw [if_pos hj] at h
      injection h with h1
      injection h1 with h2 h3
      have hjlt : j < (takeLine t).length := lastIdxOf_lt hL
      have hle : (takeLine t).length ≤ t.length := takeLine_length_le t
      rw [← h3]
      simp only [List.length_append, List.length_drop]
      omega
    · rw [if_neg hj] at h
      exact absurd h (by simp)

theorem matchDecl_length {s g r : List Char} (h : matchDecl s = some (g, r)) :
    r.length < s.length := by
  rw [matchDecl] at h
  cases h1 : stripLit NAME s with
  | none => simp [h1] at h
  | some r1 =>
    simp only [h1] at h
    cases h2 : stripLit ['='] (dropOptSpace r1) with
    | none => simp [h2] at h
    | some r2 =>
      simp only [h2] at h
      cases h3 : stripLit ['['] (dropOptSpace r2) with
      | none => simp [h3] at h
      | some r3 =>
        simp only [h3] at h
        have e1 := stripLit_sound h1
        have e2 := stripLit_sound h2
        have e3 := stripLit_sound h3
        have l1 : r1.length ≤ s.length := by rw [e1]; simp
        have l2 : r2.length < r1.length := by
          have := congrArg List.length e2
          have hd := dropOptSpace_length r1
          simp at this
          omega
        have l3 : r3.length < r2.length := by
          have := congrArg List.length e3
          have hd := dropOptSpace_length r2
          simp at this
          omega
        have l4 : r.length < r3.length := grabGroup_length h
        omega

theorem matchDecl_isPre {s : List Char} {pr : List Char × List Char}
    (h : matchDecl s = some pr) : isPre NAME s = true := by
  rw [matchDecl] at h
  cases h1 : stripLit NAME s with
  | none => simp [h1] at h
  | some r1 =>
    exact (isPre_iff _ _).2 ⟨r1, stripLit_sound h1⟩

theorem matchDecl_nil : matchDecl [] = none := rfl

theorem matchDecl_none_of_isPre_false {s : List Char} (h : isPre NAME s = false) :
    matchDecl s = none := by
  cases hm : matchDecl s with
  | none => rfl
  | some pr =>
    rw [matchDecl_isPre hm] at h
    exact absurd h (by simp)

theorem subScanF_congr : ∀ (f1 f2 : Nat) (s : List Char),
    s.length ≤ f1 → s.length ≤ f2 → subScanF f1 s = subScanF f2 s := by
  intro f1
  induction f1 with
  | zero =>
    intro f2 s h1 h2
    have hs : s = [] := List.eq_nil_of_length_eq_zero (Nat.le_zero.1 h1)
    subst hs
    cases f2 <;> rfl
  | succ f ih =>
    intro f2 s h1 h2
    cases s with
    | nil => cases f2 <;> rfl
    | cons c cs =>
      cases f2 with
      | zero => simp at h2
      | succ f3 =>
        cases hm : matchDecl (c :: cs) with
        | some pr =>
          obtain ⟨g, rest⟩ := pr
          have hr := matchDecl_length hm
          simp only [List.length_cons] at h1 h2 hr
          simp only [subScanF, hm]
          rw [ih f3 rest (by omega) (by omega)]
        | none =>
          simp only [List.length_cons] at h1 h2
          simp only [subScanF, hm]
          rw [ih f3 cs (by omega) (by omega)]

theorem subScan_nil : subScan [] = [] := rfl

theorem subScan_eq_match {s g rest : List Char} (h : matchDecl s = some (g, rest)) :
    subScan s = "website_route_rules = [{rule}, ".data ++ g ++ "]".data ++ subScan rest := by
  cases s with
  | nil => rw [matchDecl_nil] at h; exact absurd h (by simp)
  | cons c cs =>
    show subScanF (c :: cs).length (c :: cs) = _
    simp only [List.length_cons, subScanF, h]
    have hr := matchDecl_length h
    simp only [List.length_cons] at hr
    rw [subScanF_congr cs.length rest.length rest (by omega) (le_refl _)]
    rfl

theorem subScan_eq_miss {c : Char} {cs : List Char} (h : matchDecl (c :: cs) = none) :
    subScan (c :: cs) = c :: subScan cs := by
  show subScanF (c :: cs).length (c :: cs) = _
  simp only [List.length_cons, subScanF, h]
  rfl

theorem subScan_append {x y : List Char} (hf : frontFree NAME x y) :
    subScan (x ++ y) = x ++ subScan y := by
  induction x with
  | nil => simp
  | cons c cs ih =>
    have h0 : matchDecl (c :: (cs ++ y)) = none := by
      apply matchDecl_none_of_isPre_false
      have := hf 0 (by simp)
      simpa using this
    rw [List.cons_append, subScan_eq_miss h0, ih (frontFree_tail hf)]
    rfl

theorem subScan_allFree {s : List Char} (h : allFree NAME s) : subScan s = s := by
  induction s with
  | nil => rfl
  | cons c cs ih =>
    have h0 : matchDecl (c :: cs) = none := by
      apply matchDecl_none_of_isPre_false
      simpa using h 0
    rw [subScan_eq_miss h0, ih (allFree_tail h)]

theorem searchDecl_allFree {s : List Char} (h : allFree NAME s) : searchDecl s = false := by
  induction s with
  | nil => rfl
  | cons c cs ih =>
    have h0 : matchDecl (c :: cs) = none := by
      apply matchDecl_none_of_isPre_false
      simpa using h 0
    simp [searchDecl, h0, ih (allFree_tail h)]

theorem searchDecl_append_match {t : List Char} {pr : List Char × List Char}
    (x : List Char) (h : matchDecl t = some pr) : searchDecl (x ++ t) = true := by
  induction x with
  | nil =>
    cases t with
    | nil => rw [matchDecl_nil] at h; exact absurd h (by simp)
    | cons c cs => simp [searchDecl, h]
  | cons c cs ih => simp [searchDecl, ih]

/-! ### Lemmas about `pyReplace` and `countSub` -/

theorem pyReplaceF_congr (pat repl : List Char) (hp : pat ≠ []) : ∀ (f1 f2 : Nat) (s : List Char),
    s.length ≤ f1 → s.length ≤ f2 → pyReplaceF pat repl f1 s = pyReplaceF pat repl f2 s := by
  intro f1
  induction f1 with
  | zero =>
    intro f2 s h1 h2
    have hs : s = [] := List.eq_nil_of_length_eq_zero (Nat.le_zero.1 h1)
    subst hs
    cases f2 <;> rfl
  | succ f ih =>
    intro f2 s h1 h2
    cases s with
    | nil => cases f2 <;> rfl
    | cons c cs =>
      cases f2 with
      | zero => simp at h2
      | succ f3 =>
        have hplen : 1 ≤ pat.length := by
          cases pat with
          | nil => exact absurd rfl hp
          | cons a as => simp
        simp only [List.length_cons] at h1 h2
        by_cases hhit : isPre pat (c :: cs) = true
        · simp only [pyReplaceF, if_pos hhit]
          rw [ih f3 (List.drop pat.length (c :: cs)) (by simp; omega) (by simp; omega)]
        · simp only [pyReplaceF, if_neg hhit]
          rw [ih f3 cs (by omega) (by omega)]

theorem pyReplace_nil (pat repl : List Char) : pyReplace pat repl [] = [] := rfl

theorem pyReplace_cons_miss {pat : List Char} (repl : List Char) {c : Char} {cs : List Char}
    (h : isPre pat (c :: cs) = false) :
    pyReplace pat repl (c :: cs) = c :: pyReplace pat repl cs := by
  show pyReplaceF pat repl (c :: cs).length (c :: cs) = _
  simp only [List.length_cons, pyReplaceF, h]
  rfl

theorem pyReplace_hit_append {pat : List Char} (repl : List Char) (b : List Char)
    (hp : pat ≠ []) : pyReplace pat repl (pat ++ b) = repl ++ pyReplace pat repl b := by
  cases pat with
  | nil => exact absurd rfl hp
  | cons p ps =>
    have hhit : isPre (p :: ps) (p :: (ps ++ b)) = true := by
      rw [← List.cons_append]
      exact isPre_self_append _ _
    have hdrop : List.drop (p :: ps).length (p :: (ps ++ b)) = b := by
      rw [← List.cons_append]
      exact List.drop_left (p :: ps) b
    show pyReplaceF (p :: ps) repl ((p :: ps) ++ b).length ((p :: ps) ++ b) = _
    have hlen : ((p :: ps) ++ b).length = (ps ++ b).length + 1 := by simp
    rw [hlen, List.cons_append]
    simp only [pyReplaceF]
    rw [if_pos hhit, hdrop]
    rw [pyReplaceF_congr (p :: ps) repl hp (ps ++ b).length b.length b (by simp) (le_refl _)]
    rfl

theorem pyReplace_append {pat repl x y : List Char} (hf : frontFree pat x y) :
    pyReplace pat repl (x ++ y) = x ++ pyReplace pat repl y := by
  induction x with
  | nil => simp
  | cons c cs ih =>
    have h0 : isPre pat (c :: (cs ++ y)) = false := by simpa using hf 0 (by simp)
    rw [List.cons_append, pyReplace_cons_miss repl h0, ih (frontFree_tail hf)]
    rfl

theorem pyReplace_allFree {pat repl s : List Char} (h : allFree pat s) :
    pyReplace pat repl s = s := by
  induction s with
  | nil => rfl
  | cons c cs ih =>
    have h0 : isPre pat (c :: cs) = false := by simpa using h 0
    rw [pyReplace_cons_miss repl h0, ih (allFree_tail h)]

theorem pyReplace_contains {pat repl s : List Char} (hp : pat ≠ [])
    (h : hasSub pat s = true) : ∃ A B, pyReplace pat repl s = A ++ repl ++ B := by
  induction s with
  | nil =>
    exact absurd (isPre_nil_eq h) hp
  | cons c cs ih =>
    by_cases hh : isPre pat (c :: cs) = true
    · obtain ⟨t, ht⟩ := (isPre_iff _ _).1 hh
      refine ⟨[], pyReplace pat repl t, ?_⟩
      rw [ht, pyReplace_hit_append repl t hp]
      rfl
    · have h2 : hasSub pat cs = true := by
        simp only [hasSub, Bool.or_eq_true] at h
        cases h with
        | inl h1 => exact absurd h1 hh
        | inr h1 => exact h1
      obtain ⟨A, B, hAB⟩ := ih h2
      refine ⟨c :: A, B, ?_⟩
      rw [pyReplace_cons_miss repl (by simpa using hh), hAB]
      rfl

theorem countSub_append {pat x y : List Char} (hf : frontFree pat x y) :
    countSub pat (x ++ y) = countSub pat y := by
  induction x with
  | nil => simp
  | cons c cs ih =>
    have h0 : isPre pat (c :: (cs ++ y)) = false := by simpa using hf 0 (by simp)
    rw [List.cons_append, countSub, h0]
    simpa using ih (frontFree_tail hf)

theorem countSub_allFree_zero {pat s : List Char} (h : allFree pat s) :
    countSub pat s = 0 := by
  induction s with
  | nil => rfl
  | cons c cs ih =>
    have h0 : isPre pat (c :: cs) = false := by simpa using h 0
    rw [countSub, h0]
    simpa using ih (allFree_tail h)

theorem countSub_self_append (p : Char) (ps b : List Char) :
    countSub (p :: ps) ((p :: ps) ++ b) = 1 + countSub (p :: ps) (ps ++ b) := by
  have hhit : isPre (p :: ps) (p :: (ps ++ b)) = true := by
    rw [← List.cons_append]
    exact isPre_self_append _ _
  rw [List.cons_append, countSub, if_pos hhit]

/-! ### Computing the pattern match on a well-formed declaration -/

theorem takeLine_append {x y : List Char} (hx : '\n' ∉ x)
    (hy : y = [] ∨ y.head? = some '\n') : takeLine (x ++ y) = x := by
  induction x with
  | nil =>
    cases hy with
    | inl h => subst h; rfl
    | inr h =>
      cases y with
      | nil => rfl
      | cons d ds =>
        simp at h
        subst h
        simp [takeLine]
  | cons c cs ih =>
    have hc : ¬ (c = '\n') := fun hh => hx (by rw [hh]; exact List.mem_cons_self _ _)
    have hcs : '\n' ∉ cs := fun hh => hx (List.mem_cons_of_mem _ hh)
    rw [List.cons_append, takeLine, if_neg hc, ih hcs]

theorem lastIdxOf_concat (c : Char) (l : List Char) : lastIdxOf c (l ++ [c]) = some l.length := by
  induction l with
  | nil => simp [lastIdxOf]
  | cons a as ih =>
    rw [List.cons_append, lastIdxOf, ih]
    simp

theorem grabGroup_exact {G rest : List Char} (hG : G ≠ []) (hGn : '\n' ∉ G)
    (hrest : rest = [] ∨ rest.head? = some '\n') :
    grabGroup ((G ++ [']']) ++ rest) = some (G, rest) := by
  have hnl : '\n' ∉ G ++ [']'] := by
    intro hmem
    rcases List.mem_append.1 hmem with h1 | h1
    · exact hGn h1
    · simp at h1
  have hline : takeLine ((G ++ [']']) ++ rest) = G ++ [']'] := takeLine_append hnl hrest
  have h1 : 1 ≤ G.length := List.length_pos.2 hG
  rw [grabGroup]
  simp only [hline, lastIdxOf_concat ']' G]
  rw [if_pos h1]
  have htake : (G ++ [']']).take G.length = G := List.take_left G [']']
  have hdrop1 : (G ++ [']']).drop (G.length + 1) = [] := by
    have hlen : (G ++ [']']).length = G.length + 1 := by simp
    rw [← hlen]
    exact List.drop_length _
  have hdrop2 : ((G ++ [']']) ++ rest).drop (G ++ [']']).length = rest := List.drop_left _ _
  rw [htake, hdrop1, hdrop2]
  simp

theorem optSp_cases {s : List Char} (h : optSp s = true) :
    s = [] ∨ ∃ c, s = [c] ∧ pyIsSpace c = true := by
  cases s with
  | nil => exact Or.inl rfl
  | cons c cs =>
    cases cs with
    | nil => exact Or.inr ⟨c, rfl, h⟩
    | cons d ds => simp [optSp] at h

theorem dropOptSpace_opt {s1 : List Char} (hs1 : optSp s1 = true) (c : Char)
    (hns : pyIsSpace c = false) (Y : List Char) :
    dropOptSpace (s1 ++ (c :: Y)) = c :: Y := by
  rcases optSp_cases hs1 with rfl | ⟨d, rfl, hd⟩
  · rw [List.nil_append, dropOptSpace, if_neg (by simp [hns])]
  · show dropOptSpace (d :: (c :: Y)) = c :: Y
    rw [dropOptSpace, if_pos hd]

theorem matchDecl_decl {s1 s2 G rest : List Char}
    (hs1 : optSp s1 = true) (hs2 : optSp s2 = true) (hG : G ≠ []) (hGn : '\n' ∉ G)
    (hrest : rest = [] ∨ rest.head? = some '\n') :
    matchDecl (NAME ++ (s1 ++ ('=' :: (s2 ++ ('[' :: ((G ++ [']']) ++ rest))))))
      = some (G, rest) := by
  rw [matchDecl]
  have e1 := stripLit_self NAME (s1 ++ ('=' :: (s2 ++ ('[' :: ((G ++ [']']) ++ rest)))))
  simp only [e1]
  have e2 : dropOptSpace (s1 ++ ('=' :: (s2 ++ ('[' :: ((G ++ [']']) ++ rest)))))
      = '=' :: (s2 ++ ('[' :: ((G ++ [']']) ++ rest))) :=
    dropOptSpace_opt hs1 '=' (by decide) _
  simp only [e2]
  have e3 : stripLit ['='] ('=' :: (s2 ++ ('[' :: ((G ++ [']']) ++ rest))))
      = some (s2 ++ ('[' :: ((G ++ [']']) ++ rest))) := by
    simp [stripLit]
  simp only [e3]
  have e4 : dropOptSpace (s2 ++ ('[' :: ((G ++ [']']) ++ rest)))
      = '[' :: ((G ++ [']']) ++ rest) :=
    dropOptSpace_opt hs2 '[' (by decide) _
  simp only [e4]
  have e5 : stripLit ['['] ('[' :: ((G ++ [']']) ++ rest)) = some ((G ++ [']']) ++ rest) := by
    simp [stripLit]
  simp only [e5]
  exact grabGroup_exact hG hGn hrest

theorem subScan_hasSub_RB {s : List Char} (h : searchDecl s = true) :
    ∃ A B, subScan s = A ++ RB ++ B := by
  induction s with
  | nil => simp [searchDecl] at h
  | cons c cs ih =>
    cases hm : matchDecl (c :: cs) with
    | some pr =>
      obtain ⟨g, rest⟩ := pr
      refine ⟨"website_route_rules = [".data, ", ".data ++ g ++ "]".data ++ subScan rest, ?_⟩
      rw [subScan_eq_match hm]
      have hdec : "website_route_rules = [{rule}, ".data
          = ("website_route_rules = [".data ++ RB) ++ ", ".data := rfl
      rw [hdec]
      simp [List.append_assoc]
    | none =>
      have h2 : searchDecl cs = true := by
        rw [searchDecl, hm] at h
        simpa using h
      obtain ⟨A, B, hAB⟩ := ih h2
      exact ⟨c :: A, B, by rw [subScan_eq_miss hm, hAB]; rfl⟩

/-! ### Specialised occurrence-freeness helpers and composition -/

theorem frontFree_allFree_append {pat x y : List Char} (hf : frontFree pat x y)
    (ha : allFree pat y) : allFree pat (x ++ y) := by
  intro i
  by_cases h : i < x.length
  · exact hf i h
  · rw [drop_app_ge y (le_of_not_lt h)]
    exact ha _

theorem RB_ne : RB ≠ [] := by decide

theorem frontFree_RB_of_notin {x y : List Char} (hx : '{' ∉ x) : frontFree RB x y := by
  have hRB : RB = '{' :: "rule\x7d".data := rfl
  rw [hRB]
  exact frontFree_of_head_notin hx

theorem frontFree_RB_of_hasSub {x y : List Char} (hd : Char) (hx : hasSub RB x = false)
    (hy : y.head? = some hd) (hmem : hd ∉ "rule\x7d".data) : frontFree RB x y := by
  have hRB : RB = '{' :: "rule\x7d".data := rfl
  rw [hRB]
  exact frontFree_of_hasSub_false hx hy hmem

theorem frontFree_NAME_of_notin {x y : List Char} (hx : 'w' ∉ x) : frontFree NAME x y := by
  have hN : NAME = 'w' :: "ebsite_route_rules".data := rfl
  rw [hN]
  exact frontFree_of_head_notin hx

theorem frontFree_NAME_of_hasSub {x y : List Char} (hd : Char) (hx : hasSub NAME x = false)
    (hy : y.head? = some hd) (hmem : hd ∉ "ebsite_route_rules".data) : frontFree NAME x y := by
  have hN : NAME = 'w' :: "ebsite_route_rules".data := rfl
  rw [hN]
  exact frontFree_of_hasSub_false hx hy hmem

/-! ### The two behaviours of the injection -/

/-- When the hooks text is a single well-formed single-line declaration
surrounded by occurrence-free context, the injection rewrites exactly that
declaration, prepending the rule record to the bracket body. -/
theorem inj_decl (rule pre s1 s2 G post : List Char)
    (hs1 : optSp s1 = true) (hs2 : optSp s2 = true)
    (hG : G ≠ []) (hGn : '\n' ∉ G)
    (hpost : post = [] ∨ post.head? = some '\n')
    (hNpre : hasSub NAME pre = false) (hNpost : hasSub NAME post = false)
    (hRpre : hasSub RB pre = false) (hRG : hasSub RB G = false)
    (hRpost : hasSub RB post = false) :
    injectCore rule (pre ++ (NAME ++ (s1 ++ ('=' :: (s2 ++ ('[' :: ((G ++ [']']) ++ post)))))))
      = pre ++ ("website_route_rules = [".data
          ++ (rule ++ (", ".data ++ (G ++ ("]".data ++ post))))) := by
  have hm : matchDecl (NAME ++ (s1 ++ ('=' :: (s2 ++ ('[' :: ((G ++ [']']) ++ post))))))
      = some (G, post) := matchDecl_decl hs1 hs2 hG hGn hpost
  have hffN : frontFree NAME pre
      (NAME ++ (s1 ++ ('=' :: (s2 ++ ('[' :: ((G ++ [']']) ++ post)))))) :=
    frontFree_NAME_of_hasSub 'w' hNpre rfl (by decide)
  have h1 := subScan_append hffN
  have h2 := subScan_eq_match hm
  have h3 : subScan post = post := subScan_allFree (hasSub_false_allFree hNpost)
  have hsearch : searchDecl
      (pre ++ (NAME ++ (s1 ++ ('=' :: (s2 ++ ('[' :: ((G ++ [']']) ++ post))))))) = true :=
    searchDecl_append_match pre hm
  simp only [injectCore]
  rw [if_pos hsearch, h1, h2, h3]
  have hT : "website_route_rules = [{rule}, ".data
      = ("website_route_rules = [".data ++ RB) ++ ", ".data := rfl
  rw [hT]
  simp only [List.append_assoc]
  have hf1 : frontFree RB pre
      ("website_route_rules = [".data ++ (RB ++ (", ".data ++ (G ++ ("]".data ++ post))))) :=
    frontFree_RB_of_hasSub 'w' hRpre rfl (by decide)
  rw [pyReplace_append hf1]
  have hf2 : frontFree RB ("website_route_rules = [".data)
      (RB ++ (", ".data ++ (G ++ ("]".data ++ post)))) :=
    frontFree_RB_of_notin (by decide)
  rw [pyReplace_append hf2]
  rw [pyReplace_hit_append rule (", ".data ++ (G ++ ("]".data ++ post))) RB_ne]
  have hfG : frontFree RB G ("]".data ++ post) :=
    frontFree_RB_of_hasSub ']' hRG rfl (by decide)
  have ha : allFree RB (", ".data ++ (G ++ ("]".data ++ post))) := by
    apply frontFree_allFree_append (frontFree_RB_of_notin (by decide))
    apply frontFree_allFree_append hfG
    apply frontFree_allFree_append (frontFree_RB_of_notin (by decide))
    exact hasSub_false_allFree hRpost
  rw [pyReplace_allFree ha]

/-- When the variable name is absent from the hooks text, the injection
appends a fresh declaration at the end of the file. -/
theorem inj_nodecl (rule hooks : List Char) (hN : hasSub NAME hooks = false)
    (hR : hasSub RB hooks = false) :
    injectCore rule hooks
      = hooks ++ ("\nwebsite_route_rules = [".data ++ (rule ++ ",]".data)) := by
  have hAll := hasSub_false_allFree hN
  have hsub : subScan hooks = hooks := subScan_allFree hAll
  have hsearch : searchDecl hooks = false := searchDecl_allFree hAll
  simp only [injectCore]
  rw [if_neg (by simp [hsearch])]
  show pyReplace RB rule
      (hooks ++ ("\nwebsite_route_rules = [".data ++ (RB ++ ",]".data))) = _
  have hf1 : frontFree RB hooks ("\nwebsite_route_rules = [".data ++ (RB ++ ",]".data)) :=
    frontFree_RB_of_hasSub '\n' hR rfl (by decide)
  rw [pyReplace_append hf1]
  have hf2 : frontFree RB ("\nwebsite_route_rules = [".data) (RB ++ ",]".data) :=
    frontFree_RB_of_notin (by decide)
  rw [pyReplace_append hf2]
  rw [pyReplace_hit_append rule (",]".data) RB_ne]
  have ha : allFree RB (",]".data) :=
    hasSub_false_allFree (show hasSub RB (",]".data) = false by decide)
  rw [pyReplace_allFree ha]

/-! ### Counting occurrences of the variable name in the outputs -/

theorem countSub_NAME_self (b : List Char) :
    countSub NAME (NAME ++ b) = 1 + countSub NAME ("ebsite_route_rules".data ++ b) := by
  have hN : NAME = 'w' :: "ebsite_route_rules".data := rfl
  rw [hN, countSub_self_append]

theorem countSub_out_decl (rule pre G post : List Char)
    (hNpre : hasSub NAME pre = false) (hNrule : hasSub NAME rule = false)
    (hNG : hasSub NAME G = false) (hNpost : hasSub NAME post = false) :
    countSub NAME (pre ++ ("website_route_rules = [".data
        ++ (rule ++ (", ".data ++ (G ++ ("]".data ++ post)))))) = 1 := by
  have hLIT : "website_route_rules = [".data = NAME ++ (" = [".data) := rfl
  rw [hLIT]
  simp only [List.append_assoc]
  have hf1 : frontFree NAME pre
      (NAME ++ (" = [".data ++ (rule ++ (", ".data ++ (G ++ ("]".data ++ post)))))) :=
    frontFree_NAME_of_hasSub 'w' hNpre rfl (by decide)
  rw [countSub_append hf1, countSub_NAME_self]
  have hf2 : frontFree NAME ("ebsite_route_rules".data)
      (" = [".data ++ (rule ++ (", ".data ++ (G ++ ("]".data ++ post))))) :=
    frontFree_NAME_of_hasSub ' ' (by decide) rfl (by decide)
  rw [countSub_append hf2]
  have hf3 : frontFree NAME (" = [".data)
      (rule ++ (", ".data ++ (G ++ ("]".data ++ post)))) :=
    frontFree_NAME_of_notin (by decide)
  rw [countSub_append hf3]
  have hf4 : frontFree NAME rule (", ".data ++ (G ++ ("]".data ++ post))) :=
    frontFree_NAME_of_hasSub ',' hNrule rfl (by decide)
  rw [countSub_append hf4]
  have hf5 : frontFree NAME (", ".data) (G ++ ("]".data ++ post)) :=
    frontFree_NAME_of_notin (by decide)
  rw [countSub_append hf5]
  have hf6 : frontFree NAME G ("]".data ++ post) :=
    frontFree_NAME_of_hasSub ']' hNG rfl (by decide)
  rw [countSub_append hf6]
  have hf7 : frontFree NAME ("]".data) post :=
    frontFree_NAME_of_notin (by decide)
  rw [countSub_append hf7]
  rw [countSub_allFree_zero (hasSub_false_allFree hNpost)]

theorem countSub_out_nodecl (rule hooks : List Char)
    (hN : hasSub NAME hooks = false) (hNrule : hasSub NAME rule = false) :
    countSub NAME (hooks ++ ("\nwebsite_route_rules = [".data
        ++ (rule ++ ",]".data))) = 1 := by
  have hLIT : "\nwebsite_route_rules = [".data = "\n".data ++ (NAME ++ (" = [".data)) := rfl
  rw [hLIT]
  simp only [List.append_assoc]
  have hf1 : frontFree NAME hooks
      ("\n".data ++ (NAME ++ (" = [".data ++ (rule ++ ",]".data)))) :=
    frontFree_NAME_of_hasSub '\n' hN rfl (by decide)
  rw [countSub_append hf1]
  have hf2 : frontFree NAME ("\n".data)
      (NAME ++ (" = [".data ++ (rule ++ ",]".data))) :=
    frontFree_NAME_of_notin (by decide)
  rw [countSub_append hf2, countSub_NAME_self]
  have hf3 : frontFree NAME ("ebsite_route_rules".data)
      (" = [".data ++ (rule ++ ",]".data)) :=
    frontFree_NAME_of_hasSub ' ' (by decide) rfl (by decide)
  rw [countSub_append hf3]
  have hf4 : frontFree NAME (" = [".data) (rule ++ ",]".data) :=
    frontFree_NAME_of_notin (by decide)
  rw [countSub_append hf4]
  have hf5 : frontFree NAME rule (",]".data) :=
    frontFree_NAME_of_hasSub ',' hNrule rfl (by decide)
  rw [countSub_append hf5]
  rw [countSub_allFree_zero (hasSub_false_allFree (show hasSub NAME (",]".data) = false
    by decide))]

theorem hasSub_self_append {pat : List Char} (B : List Char) (hp : pat ≠ []) :
    hasSub pat (pat ++ B) = true := by
  cases pat with
  | nil => exact absurd rfl hp
  | cons p ps =>
    have hhit : isPre (p :: ps) (p :: (ps ++ B)) = true := by
      rw [← List.cons_append]
      exact isPre_self_append _ _
    rw [List.cons_append, hasSub, hhit]
    rfl

/-! ### Parsing the rule record back -/

theorem splitAtQuote_exact {x : List Char} (y : List Char) (hx : '\x27' ∉ x) :
    splitAtQuote (x ++ ('\x27' :: y)) = some (x, y) := by
  induction x with
  | nil => simp [splitAtQuote]
  | cons c cs ih =>
    have hc : ¬ (c = '\x27') := fun hh => hx (by rw [hh]; exact List.mem_cons_self _ _)
    have hcs : '\x27' ∉ cs := fun hh => hx (List.mem_cons_of_mem _ hh)
    rw [List.cons_append, splitAtQuote, if_neg hc, ih hcs]

theorem parseRecord_rule (spa rest : List Char) (hq : '\x27' ∉ spa) :
    parseRecord (ruleText spa ++ rest)
      = some ((("/".data ++ spa) ++ "/<path:app_path>".data, spa), rest) := by
  have hsplit : ruleText spa ++ rest
      = "\x7b\x27from_route\x27: \x27".data
        ++ ((("/".data ++ spa) ++ "/<path:app_path>".data)
          ++ ('\x27' :: (", \x27to_route\x27: \x27".data
            ++ (spa ++ ('\x27' :: ('\x7d' :: rest)))))) := by
    rw [ruleText]
    simp [List.append_assoc]
  rw [parseRecord, hsplit]
  simp only [stripLit_self]
  have e2 : splitAtQuote ((("/".data ++ spa) ++ "/<path:app_path>".data)
        ++ ('\x27' :: (", \x27to_route\x27: \x27".data
          ++ (spa ++ ('\x27' :: ('\x7d' :: rest))))))
      = some ((("/".data ++ spa) ++ "/<path:app_path>".data),
          ", \x27to_route\x27: \x27".data ++ (spa ++ ('\x27' :: ('\x7d' :: rest)))) := by
    apply splitAtQuote_exact
    intro hmem
    rcases List.mem_append.1 hmem with h1 | h1
    · rcases List.mem_append.1 h1 with h2 | h2
      · simp at h2
      · exact hq h2
    · simp at h1
  simp only [e2]
  simp only [stripLit_self]
  have e3 : splitAtQuote (spa ++ ('\x27' :: ('\x7d' :: rest)))
      = some (spa, '\x7d' :: rest) := splitAtQuote_exact _ hq
  simp only [e3]

/-! ### Claim theorems -/

/-- C4 counterexample: the claimed exact output for injecting the
`billing` rule into `"x = 1\n"` is wrong: appending
`"\nwebsite_route_rules = [\x7brule\x7d,]"` to a file that already ends in a
newline yields a blank line, so the output has two consecutive newlines,
not one as the claim states. -/
theorem C4_counterexample :
    ¬ (add_routing_rule_to_hooks ("billing".data) ("x = 1\n".data)
        = "x = 1\nwebsite_route_rules = [\x7b\x27from_route\x27: \x27/billing/<path:app_path>\x27, \x27to_route\x27: \x27billing\x27\x7d,]".data) := by
  decide

/-- C4 (amended): injecting the rule for SPA name `billing` into
`"x = 1\n"` produces exactly
`"x = 1\n\nwebsite_route_rules = [\x7b'from_route': '/billing/<path:app_path>', 'to_route': 'billing'\x7d,]"`
— the input, a newline starting the appended declaration line (which,
after the input's own trailing newline, reads as a blank line), and the
fresh single-element declaration. -/
theorem C4_exact_output :
    add_routing_rule_to_hooks ("billing".data) ("x = 1\n".data)
      = "x = 1\n\nwebsite_route_rules = [\x7b\x27from_route\x27: \x27/billing/<path:app_path>\x27, \x27to_route\x27: \x27billing\x27\x7d,]".data := by
  decide

/-- C9: the injection goes through the literal placeholder `\x7brule\x7d`
and a global string replacement, so a pre-existing occurrence of
`\x7brule\x7d` in the input — here inside an unrelated assignment — is
also replaced by the new rule record: pre-existing content is not
preserved byte-for-byte, and no occurrence of the placeholder survives. -/
theorem C9_placeholder_clobbered :
    add_routing_rule_to_hooks ("billing".data)
        ("a = \x27{rule}\x27\nwebsite_route_rules = [\x7b\x27from_route\x27: \x27/a\x27, \x27to_route\x27: \x27a\x27\x7d]\n".data)
      = "a = \x27".data ++ (ruleText ("billing".data)
          ++ ("\x27\nwebsite_route_rules = [".data
            ++ (ruleText ("billing".data)
              ++ (", \x7b\x27from_route\x27: \x27/a\x27, \x27to_route\x27: \x27a\x27\x7d]\n".data))))
      ∧ hasSub RB (add_routing_rule_to_hooks ("billing".data)
          ("a = \x27{rule}\x27\nwebsite_route_rules = [\x7b\x27from_route\x27: \x27/a\x27, \x27to_route\x27: \x27a\x27\x7d]\n".data)) = false := by
  constructor
  · decide
  · decide

/-- C1 counterexample: the input declares `website_route_rules` exactly
once, as the (empty) list literal `[]` — satisfying the claim's
precondition — yet the injector's pattern requires a non-empty bracket
body, misses the declaration, and appends a second one: the output
contains two textual declarations `website_route_rules = [`, so the
declaration is duplicated, not unique. -/
theorem C1_counterexample :
    add_routing_rule_to_hooks ("billing".data) ("website_route_rules = []\n".data)
        = "website_route_rules = []\n".data
          ++ ("\nwebsite_route_rules = [".data ++ (ruleText ("billing".data) ++ ",]".data))
      ∧ countSub ("website_route_rules = [".data)
          (add_routing_rule_to_hooks ("billing".data) ("website_route_rules = []\n".data))
        = 2 := by
  constructor
  · decide
  · decide

/-- C2 counterexample: the input file contains a declaration of
`website_route_rules` as a non-empty single-line list literal whose sole
element is the (syntactically valid) set display `\x7brule\x7d`; the final
global placeholder replacement rewrites that pre-existing element too, so
the prior element is not preserved byte-for-byte: the output does not
contain `", \x7brule\x7d]"` — instead both elements are the new rule. -/
theorem C2_counterexample :
    add_routing_rule_to_hooks ("billing".data) ("website_route_rules = [{rule}]\n".data)
        = "website_route_rules = [".data
          ++ (ruleText ("billing".data)
            ++ (", ".data ++ (ruleText ("billing".data) ++ "]\n".data)))
      ∧ hasSub (", {rule}]".data)
          (add_routing_rule_to_hooks ("billing".data) ("website_route_rules = [{rule}]\n".data))
        = false := by
  constructor
  · decide
  · decide

/-- C3 counterexample: the input `"x = '\x7brule\x7d'\n"` contains no
declaration of `website_route_rules`, but the output is not the input
with a declaration line appended: the global placeholder replacement also
rewrites the pre-existing `\x7brule\x7d`, so the input is not even a
prefix of the output. -/
theorem C3_counterexample :
    isPre ("x = \x27{rule}\x27\n".data)
        (add_routing_rule_to_hooks ("billing".data) ("x = \x27{rule}\x27\n".data)) = false
      ∧ add_routing_rule_to_hooks ("billing".data) ("x = \x27{rule}\x27\n".data)
          = "x = \x27".data ++ (ruleText ("billing".data)
            ++ ("\x27\n\nwebsite_route_rules = [".data
              ++ (ruleText ("billing".data) ++ ",]".data))) := by
  constructor
  · decide
  · decide

/-- C2 (amended): when the file holds a declaration of the variable as a
non-empty single-line list literal in the form recognised by the pattern
(at most one whitespace character on each side of `=`, closing bracket on
the same line), the surrounding text is free of the variable name, and —
as the counterexample forces — the file nowhere contains the placeholder
`\x7brule\x7d`, injecting a rule rewrites exactly that declaration: the
new record becomes the first element and the previous bracket body `G`
reappears byte-for-byte after it, shifted right. -/
theorem C2_prepend_rule (rule pre s1 s2 G post : List Char)
    (hs1 : optSp s1 = true) (hs2 : optSp s2 = true)
    (hG : G ≠ []) (hGn : '\n' ∉ G)
    (hpost : post = [] ∨ post.head? = some '\n')
    (hNpre : hasSub NAME pre = false) (hNpost : hasSub NAME post = false)
    (hRpre : hasSub RB pre = false) (hRG : hasSub RB G = false)
    (hRpost : hasSub RB post = false) :
    injectCore rule (pre ++ (NAME ++ (s1 ++ ('=' :: (s2 ++ ('[' :: ((G ++ [']']) ++ post)))))))
      = pre ++ ("website_route_rules = [".data
          ++ (rule ++ (", ".data ++ (G ++ ("]".data ++ post))))) :=
  inj_decl rule pre s1 s2 G post hs1 hs2 hG hGn hpost hNpre hNpost hRpre hRG hRpost

/-- C2 witness: the spec's concrete scenario — injecting the rule record
`\x7b'from_route': '/b', 'to_route': 'b'\x7d` into
`"website_route_rules = [\x7b'from_route': '/a', 'to_route': 'a'\x7d]\n"`
yields `[B, A]` with A byte-for-byte unchanged. -/
theorem C2_prepend_rule_witness :
    (optSp [' '] = true ∧ optSp [' '] = true
      ∧ ("\x7b\x27from_route\x27: \x27/a\x27, \x27to_route\x27: \x27a\x27\x7d".data ≠ ([] : List Char))
      ∧ '\n' ∉ "\x7b\x27from_route\x27: \x27/a\x27, \x27to_route\x27: \x27a\x27\x7d".data
      ∧ (("\n".data : List Char) = [] ∨ ("\n".data : List Char).head? = some '\n')
      ∧ hasSub NAME ([] : List Char) = false
      ∧ hasSub NAME ("\n".data) = false
      ∧ hasSub RB ([] : List Char) = false
      ∧ hasSub RB ("\x7b\x27from_route\x27: \x27/a\x27, \x27to_route\x27: \x27a\x27\x7d".data) = false
      ∧ hasSub RB ("\n".data) = false)
    ∧ injectCore ("\x7b\x27from_route\x27: \x27/b\x27, \x27to_route\x27: \x27b\x27\x7d".data)
        ([] ++ (NAME ++ ([' '] ++ ('=' :: ([' ']
          ++ ('[' :: (("\x7b\x27from_route\x27: \x27/a\x27, \x27to_route\x27: \x27a\x27\x7d".data
            ++ [']']) ++ "\n".data)))))))
      = [] ++ ("website_route_rules = [".data
          ++ ("\x7b\x27from_route\x27: \x27/b\x27, \x27to_route\x27: \x27b\x27\x7d".data
            ++ (", ".data
              ++ ("\x7b\x27from_route\x27: \x27/a\x27, \x27to_route\x27: \x27a\x27\x7d".data
                ++ ("]".data ++ "\n".data))))) :=
  ⟨by decide,
    C2_prepend_rule ("\x7b\x27from_route\x27: \x27/b\x27, \x27to_route\x27: \x27b\x27\x7d".data)
      [] [' '] [' ']
      ("\x7b\x27from_route\x27: \x27/a\x27, \x27to_route\x27: \x27a\x27\x7d".data)
      ("\n".data) (by decide) (by decide) (by decide) (by decide)
      (Or.inr (by decide)) (by decide) (by decide) (by decide) (by decide) (by decide)⟩

/-- C3 (amended): for an input in which the variable name
`website_route_rules` does not occur at all and — as the counterexample
forces — the placeholder `\x7brule\x7d` does not occur either, injecting
appends `"\nwebsite_route_rules = [<rule>,]"` at the end of the file
(leaving the rest byte-for-byte intact), and the output contains exactly
one occurrence of the variable name, heading the fresh single-record
declaration. -/
theorem C3_append_fresh_declaration (spa hooks : List Char)
    (hN : hasSub NAME hooks = false) (hR : hasSub RB hooks = false)
    (hNrule : hasSub NAME (ruleText spa) = false) :
    add_routing_rule_to_hooks spa hooks
        = hooks ++ ("\nwebsite_route_rules = [".data ++ (ruleText spa ++ ",]".data))
      ∧ countSub NAME (add_routing_rule_to_hooks spa hooks) = 1 := by
  have h1 := inj_nodecl (ruleText spa) hooks hN hR
  constructor
  · exact h1
  · rw [add_routing_rule_to_hooks, h1]
    exact countSub_out_nodecl (ruleText spa) hooks hN hNrule

/-- C3 witness: the fresh declaration appended to `"x = 1\n"`. -/
theorem C3_append_fresh_declaration_witness :
    (hasSub NAME ("x = 1\n".data) = false ∧ hasSub RB ("x = 1\n".data) = false
      ∧ hasSub NAME (ruleText ("billing".data)) = false)
    ∧ (add_routing_rule_to_hooks ("billing".data) ("x = 1\n".data)
        = "x = 1\n".data ++ ("\nwebsite_route_rules = [".data
            ++ (ruleText ("billing".data) ++ ",]".data))
      ∧ countSub NAME (add_routing_rule_to_hooks ("billing".data) ("x = 1\n".data)) = 1) :=
  ⟨by decide, C3_append_fresh_declaration ("billing".data) ("x = 1\n".data)
    (by decide) (by decide) (by decide)⟩

/-- C7: when the SPA `package.json` is missing, `update_package_json`
logs the user-facing message and returns early: the whole state is
unchanged except for the echoed message — neither manifest is touched and
no build script is written. -/
theorem C7_missing_manifest (app spa : List Char) (npmInit : Manifest) (w : World)
    (h : w.spaPkg = none) :
    update_package_json app spa npmInit w = { w with log := w.log ++ [pkgMissingMsg] } := by
  rw [update_package_json]
  simp only [h]

/-- C7 witness. -/
theorem C7_missing_manifest_witness :
    (World.mk none none none [] []).spaPkg = none
      ∧ update_package_json ("app".data) ("billing".data) ⟨[]⟩ (World.mk none none none [] [])
        = { World.mk none none none [] [] with log := [] ++ [pkgMissingMsg] } :=
  ⟨rfl, C7_missing_manifest ("app".data) ("billing".data) ⟨[]⟩ (World.mk none none none [] []) rfl⟩

/-- C8: when the scaffolded `src/main.js` is missing after the
initialisation step, `link_controller_files` only logs the user-facing
message and returns early, and every subsequent step of `generate_spa`
(proxy setup, router setup, vue files, package.json update, www
directory, optional tailwind, hooks patching) still runs on that state —
the pipeline is not aborted globally. -/
theorem C8_missing_main_js (app spa : List Char) (tailwind : Bool) (boiler : List Char)
    (npmInit : Manifest)
    (initStep proxyStep routerStep vueStep wwwStep tailwindStep : World → World)
    (w : World)
    (h : (initStep { w with log := w.log ++ ["Generating spa...".data] }).mainJs = none) :
    generate_spa app spa tailwind boiler npmInit
        initStep proxyStep routerStep vueStep wwwStep tailwindStep w
      = (let w1 := initStep { w with log := w.log ++ ["Generating spa...".data] }
         let w2 := { w1 with log := w1.log ++ [mainJsMissingMsg] }
         let w3 := update_package_json app spa npmInit (vueStep (routerStep (proxyStep w2)))
         let w4 := if tailwind then tailwindStep (wwwStep w3) else wwwStep w3
         { w4 with hooks := add_routing_rule_to_hooks spa w4.hooks }) := by
  simp only [generate_spa, link_controller_files, h]

/-- C8 witness. -/
theorem C8_missing_main_js_witness :
    (((fun v : World => v) { World.mk none none none [] [] with
        log := ([] : List (List Char)) ++ ["Generating spa...".data] }).mainJs = none)
      ∧ generate_spa ("app".data) ("billing".data) false [] ⟨[]⟩
          (fun v => v) (fun v => v) (fun v => v) (fun v => v) (fun v => v) (fun v => v)
          (World.mk none none none [] [])
        = (let w1 := (fun v : World => v) { World.mk none none none [] [] with
             log := ([] : List (List Char)) ++ ["Generating spa...".data] }
           let w2 := { w1 with log := w1.log ++ [mainJsMissingMsg] }
           let w3 := update_package_json ("app".data) ("billing".data) ⟨[]⟩
             ((fun v : World => v) ((fun v : World => v) ((fun v : World => v) w2)))
           let w4 := if false then (fun v : World => v) ((fun v : World => v) w3)
             else (fun v : World => v) w3
           { w4 with hooks := add_routing_rule_to_hooks ("billing".data) w4.hooks }) :=
  ⟨rfl, C8_missing_main_js ("app".data) ("billing".data) false [] ⟨[]⟩
    (fun v => v) (fun v => v) (fun v => v) (fun v => v) (fun v => v) (fun v => v)
    (World.mk none none none [] []) rfl⟩

/-- C10: the injected record is never an arbitrary input: the public
operation takes only the SPA name and the file text, the record it
inserts is exactly
`\x7b'from_route': '/<spa>/<path:app_path>', 'to_route': '<spa>'\x7d`,
fully determined by the SPA name, and on every input the output contains
that record. -/
theorem C10_rule_determined_by_name (spa hooks : List Char) :
    add_routing_rule_to_hooks spa hooks = injectCore (ruleText spa) hooks
      ∧ ruleText spa = "\x7b\x27from_route\x27: \x27/".data
          ++ (spa ++ ("/<path:app_path>\x27, \x27to_route\x27: \x27".data
            ++ (spa ++ "\x27\x7d".data)))
      ∧ ∃ A B, add_routing_rule_to_hooks spa hooks = A ++ (ruleText spa ++ B) := by
  refine ⟨rfl, by rw [ruleText]; simp [List.append_assoc], ?_⟩
  rw [add_routing_rule_to_hooks]
  by_cases hs : searchDecl hooks = true
  · obtain ⟨A, B, hAB⟩ := subScan_hasSub_RB hs
    have hRBin : hasSub RB (subScan hooks) = true := by
      rw [hAB, List.append_assoc]
      exact hasSub_append_right A (hasSub_self_append B RB_ne)
    simp only [injectCore, if_pos hs]
    obtain ⟨A2, B2, h2⟩ := pyReplace_contains RB_ne hRBin
    rw [List.append_assoc] at h2
    exact ⟨A2, B2, h2⟩
  · simp only [injectCore, if_neg hs]
    have hRBin : hasSub RB (hooks ++ "\nwebsite_route_rules = [{rule},]".data) = true := by
      apply hasSub_append_right
      have hA : "\nwebsite_route_rules = [{rule},]".data
          = "\nwebsite_route_rules = [".data ++ (RB ++ ",]".data) := rfl
      rw [hA]
      exact hasSub_append_right _ (hasSub_self_append _ RB_ne)
    obtain ⟨A2, B2, h2⟩ := pyReplace_contains RB_ne hRBin
    rw [List.append_assoc] at h2
    exact ⟨A2, B2, h2⟩

theorem ruleText_ne_nil (spa : List Char) : ruleText spa ≠ [] := by
  rw [ruleText]
  simp

theorem hasSub_false_append_compose {pat x y : List Char}
    (hf : frontFree pat x y) (hy : hasSub pat y = false) : hasSub pat (x ++ y) = false :=
  allFree_hasSub_false (frontFree_allFree_append hf (hasSub_false_allFree hy))

/-- C1 (amended): the single-declaration guarantee holds for inputs whose
declaration (when present) is in the single-line form the pattern
recognises — non-empty bracket body, closing bracket on the same line, at
most one whitespace character around `=` — with the variable name absent
from the surrounding text and the placeholder `\x7brule\x7d` absent from
the file (both forced by the counterexamples): after one injection the
variable name occurs exactly once, heading a single-line bracketed
declaration with a non-empty body. -/
theorem C1_single_declaration (spa hooks : List Char)
    (hNrule : hasSub NAME (ruleText spa) = false)
    (hnlrule : '\n' ∉ ruleText spa)
    (hshape :
      (∃ pre s1 s2 G post,
        hooks = pre ++ (NAME ++ (s1 ++ ('=' :: (s2 ++ ('[' :: ((G ++ [']']) ++ post))))))
          ∧ optSp s1 = true ∧ optSp s2 = true ∧ G ≠ [] ∧ '\n' ∉ G
          ∧ (post = [] ∨ post.head? = some '\n')
          ∧ hasSub NAME pre = false ∧ hasSub NAME G = false ∧ hasSub NAME post = false
          ∧ hasSub RB pre = false ∧ hasSub RB G = false ∧ hasSub RB post = false)
      ∨ (hasSub NAME hooks = false ∧ hasSub RB hooks = false)) :
    countSub NAME (add_routing_rule_to_hooks spa hooks) = 1
      ∧ ∃ A g B, add_routing_rule_to_hooks spa hooks
          = A ++ (NAME ++ (" = [".data ++ (g ++ ("]".data ++ B))))
          ∧ g ≠ [] ∧ '\n' ∉ g := by
  rcases hshape with
    ⟨pre, s1, s2, G, post, heq, hs1, hs2, hG, hGn, hpost,
      hNpre, hNG, hNpost, hRpre, hRG, hRpost⟩ | ⟨hN, hR⟩
  · have h1 := inj_decl (ruleText spa) pre s1 s2 G post hs1 hs2 hG hGn hpost
      hNpre hNpost hRpre hRG hRpost
    rw [add_routing_rule_to_hooks, heq, h1]
    constructor
    · exact countSub_out_decl (ruleText spa) pre G post hNpre hNrule hNG hNpost
    · refine ⟨pre, ruleText spa ++ (", ".data ++ G), post, ?_, ?_, ?_⟩
      · have hL : "website_route_rules = [".data = NAME ++ " = [".data := rfl
        rw [hL]
        simp [List.append_assoc]
      · intro hcon
        exact ruleText_ne_nil spa (List.append_eq_nil.1 hcon).1
      · intro hcon
        rcases List.mem_append.1 hcon with h2 | h2
        · exact hnlrule h2
        · rcases List.mem_append.1 h2 with h3 | h3
          · simp at h3
          · exact hGn h3
  · have h1 := inj_nodecl (ruleText spa) hooks hN hR
    rw [add_routing_rule_to_hooks, h1]
    constructor
    · exact countSub_out_nodecl (ruleText spa) hooks hN hNrule
    · refine ⟨hooks ++ "\n".data, ruleText spa ++ [','], [], ?_, ?_, ?_⟩
      · have hL : "\nwebsite_route_rules = [".data
            = "\n".data ++ (NAME ++ " = [".data) := rfl
        rw [hL]
        simp [List.append_assoc]
      · intro hcon
        exact ruleText_ne_nil spa (List.append_eq_nil.1 hcon).1
      · intro hcon
        rcases List.mem_append.1 hcon with h2 | h2
        · exact hnlrule h2
        · simp at h2

/-- C1 witness: injecting into `"x = 1\n"` (no prior declaration). -/
theorem C1_single_declaration_witness :
    (hasSub NAME (ruleText ("billing".data)) = false
      ∧ '\n' ∉ ruleText ("billing".data)
      ∧ (hasSub NAME ("x = 1\n".data) = false ∧ hasSub RB ("x = 1\n".data) = false))
    ∧ (countSub NAME (add_routing_rule_to_hooks ("billing".data) ("x = 1\n".data)) = 1
      ∧ ∃ A g B, add_routing_rule_to_hooks ("billing".data) ("x = 1\n".data)
          = A ++ (NAME ++ (" = [".data ++ (g ++ ("]".data ++ B))))
          ∧ g ≠ [] ∧ '\n' ∉ g) :=
  ⟨⟨by decide, by decide, by decide, by decide⟩,
    C1_single_declaration ("billing".data) ("x = 1\n".data)
      (by decide) (by decide) (Or.inr ⟨by decide, by decide⟩)⟩

/-- C6 counterexample: the frozen claim quantifies over every injected
rule, but an SPA name containing a single quote refutes the round-trip:
for SPA name `"b'x"` the record text is
`\x7b'from_route': '/b'x/<path:app_path>', 'to_route': 'b'x'\x7d`, whose
unescaped inner quotes terminate the quoted fields early — the record is
not a well-formed quoted mapping (Python's own literal parsing rejects
it), and parsing the output's first record back fails instead of
recovering the injected values exactly as given. -/
theorem C6_counterexample :
    add_routing_rule_to_hooks ("b\x27x".data) ("x = 1\n".data)
        = "x = 1\n".data ++ ("\nwebsite_route_rules = [".data
            ++ (ruleText ("b\x27x".data) ++ ",]".data))
      ∧ parseRecord (ruleText ("b\x27x".data) ++ ",]".data) = none := by
  refine ⟨by decide, by decide⟩

/-- C6 (amended): the round-trip holds for inputs satisfying the
single-declaration precondition and for injected rules whose SPA name
contains no single quote (forced by the counterexample, since an inner
quote escapes the record's field quoting): the output contains the
declaration with the injected record as its first element, and parsing
that record back recovers exactly the injected `from_route` value
`/<spa>/<path:app_path>` and `to_route` value `<spa>`. -/
theorem C6_roundtrip (spa hooks : List Char) (hq : '\x27' ∉ spa)
    (hshape :
      (∃ pre s1 s2 G post,
        hooks = pre ++ (NAME ++ (s1 ++ ('=' :: (s2 ++ ('[' :: ((G ++ [']']) ++ post))))))
          ∧ optSp s1 = true ∧ optSp s2 = true ∧ G ≠ [] ∧ '\n' ∉ G
          ∧ (post = [] ∨ post.head? = some '\n')
          ∧ hasSub NAME pre = false ∧ hasSub NAME G = false ∧ hasSub NAME post = false
          ∧ hasSub RB pre = false ∧ hasSub RB G = false ∧ hasSub RB post = false)
      ∨ (hasSub NAME hooks = false ∧ hasSub RB hooks = false)) :
    ∃ A B, add_routing_rule_to_hooks spa hooks
        = A ++ ("website_route_rules = [".data ++ (ruleText spa ++ B))
      ∧ parseRecord (ruleText spa ++ B)
          = some ((("/".data ++ spa) ++ "/<path:app_path>".data, spa), B) := by
  rcases hshape with
    ⟨pre, s1, s2, G, post, heq, hs1, hs2, hG, hGn, hpost,
      hNpre, hNG, hNpost, hRpre, hRG, hRpost⟩ | ⟨hN, hR⟩
  · have h1 := inj_decl (ruleText spa) pre s1 s2 G post hs1 hs2 hG hGn hpost
      hNpre hNpost hRpre hRG hRpost
    refine ⟨pre, ", ".data ++ (G ++ ("]".data ++ post)), ?_, ?_⟩
    · rw [add_routing_rule_to_hooks, heq, h1]
    · exact parseRecord_rule spa _ hq
  · have h1 := inj_nodecl (ruleText spa) hooks hN hR
    refine ⟨hooks ++ "\n".data, ",]".data, ?_, ?_⟩
    · rw [add_routing_rule_to_hooks, h1]
      have hL : "\nwebsite_route_rules = [".data
          = "\n".data ++ "website_route_rules = [".data := rfl
      rw [hL]
      simp [List.append_assoc]
    · exact parseRecord_rule spa (",]".data) hq

/-- C6 witness. -/
theorem C6_roundtrip_witness :
    ('\x27' ∉ "billing".data
      ∧ (hasSub NAME ("x = 1\n".data) = false ∧ hasSub RB ("x = 1\n".data) = false))
    ∧ ∃ A B, add_routing_rule_to_hooks ("billing".data) ("x = 1\n".data)
        = A ++ ("website_route_rules = [".data ++ (ruleText ("billing".data) ++ B))
      ∧ parseRecord (ruleText ("billing".data) ++ B)
          = some ((("/".data ++ "billing".data) ++ "/<path:app_path>".data,
              "billing".data), B) :=
  ⟨⟨by decide, by decide, by decide⟩,
    C6_roundtrip ("billing".data) ("x = 1\n".data) (by decide)
      (Or.inr ⟨by decide, by decide⟩)⟩

/-- C5 counterexample: the frozen claim quantifies over every rule, but a
rule whose SPA name contains a newline refutes it.  With SPA name
`"a\nb"` and input `"x = 1\n"` (no prior declaration, so the
at-most-once precondition holds) the rule record spans two lines; after
the first injection the appended declaration's opening line has no
closing bracket, so the second injection's pattern misses it and appends
yet another declaration.  The output holds two separate one-record
declarations: no list contains two records of the rule — the two
identical records are never adjacent (`<record>, <record>` does not
occur) and the variable is declared twice. -/
theorem C5_counterexample :
    add_routing_rule_to_hooks ("a\nb".data)
        (add_routing_rule_to_hooks ("a\nb".data) ("x = 1\n".data))
        = "x = 1\n".data ++ ("\nwebsite_route_rules = [".data
            ++ (ruleText ("a\nb".data) ++ (",]".data
              ++ ("\nwebsite_route_rules = [".data
                ++ (ruleText ("a\nb".data) ++ ",]".data)))))
      ∧ hasSub (ruleText ("a\nb".data) ++ (", ".data ++ ruleText ("a\nb".data)))
          (add_routing_rule_to_hooks ("a\nb".data)
            (add_routing_rule_to_hooks ("a\nb".data) ("x = 1\n".data))) = false
      ∧ countSub NAME (add_routing_rule_to_hooks ("a\nb".data)
          (add_routing_rule_to_hooks ("a\nb".data) ("x = 1\n".data))) = 2 := by
  refine ⟨by decide, by decide, by decide⟩

/-- C5 (amended): no deduplication — for inputs satisfying the
single-declaration precondition and rules whose record text contains no
newline and no placeholder substring (forced by the counterexample),
injecting the same SPA's rule twice yields two adjacent, textually
identical records at the head of the declaration's list; the component
never checks whether an equivalent rule exists. -/
theorem C5_no_deduplication (spa hooks : List Char)
    (hRrule : hasSub RB (ruleText spa) = false)
    (hnlrule : '\n' ∉ ruleText spa)
    (hshape :
      (∃ pre s1 s2 G post,
        hooks = pre ++ (NAME ++ (s1 ++ ('=' :: (s2 ++ ('[' :: ((G ++ [']']) ++ post))))))
          ∧ optSp s1 = true ∧ optSp s2 = true ∧ G ≠ [] ∧ '\n' ∉ G
          ∧ (post = [] ∨ post.head? = some '\n')
          ∧ hasSub NAME pre = false ∧ hasSub NAME G = false ∧ hasSub NAME post = false
          ∧ hasSub RB pre = false ∧ hasSub RB G = false ∧ hasSub RB post = false)
      ∨ (hasSub NAME hooks = false ∧ hasSub RB hooks = false)) :
    ∃ A B, add_routing_rule_to_hooks spa (add_routing_rule_to_hooks spa hooks)
        = A ++ (ruleText spa ++ (", ".data ++ (ruleText spa ++ B))) := by
  rcases hshape with
    ⟨pre, s1, s2, G, post, heq, hs1, hs2, hG, hGn, hpost,
      hNpre, hNG, hNpost, hRpre, hRG, hRpost⟩ | ⟨hN, hR⟩
  · have h1 := inj_decl (ruleText spa) pre s1 s2 G post hs1 hs2 hG hGn hpost
      hNpre hNpost hRpre hRG hRpost
    have hre : pre ++ ("website_route_rules = [".data
          ++ (ruleText spa ++ (", ".data ++ (G ++ ("]".data ++ post)))))
        = pre ++ (NAME ++ ([' '] ++ ('=' :: ([' ']
            ++ ('[' :: (((ruleText spa ++ (", ".data ++ G)) ++ [']']) ++ post)))))) := by
      have hL : "website_route_rules = [".data
          = NAME ++ ([' '] ++ ('=' :: ([' '] ++ ['[']))) := rfl
      rw [hL]
      simp [List.append_assoc]
    have hG2 : ruleText spa ++ (", ".data ++ G) ≠ [] := by
      intro hcon
      exact ruleText_ne_nil spa (List.append_eq_nil.1 hcon).1
    have hG2n : '\n' ∉ ruleText spa ++ (", ".data ++ G) := by
      intro hcon
      rcases List.mem_append.1 hcon with h2 | h2
      · exact hnlrule h2
      · rcases List.mem_append.1 h2 with h3 | h3
        · simp at h3
        · exact hGn h3
    have hRG2 : hasSub RB (ruleText spa ++ (", ".data ++ G)) = false :=
      hasSub_false_append_compose (frontFree_RB_of_hasSub ',' hRrule rfl (by decide))
        (hasSub_false_append_compose (frontFree_RB_of_notin (by decide)) hRG)
    have h2 := inj_decl (ruleText spa) pre [' '] [' ']
      (ruleText spa ++ (", ".data ++ G)) post (by decide) (by decide) hG2 hG2n hpost
      hNpre hNpost hRpre hRG2 hRpost
    refine ⟨pre ++ "website_route_rules = [".data,
      ", ".data ++ (G ++ ("]".data ++ post)), ?_⟩
    simp only [add_routing_rule_to_hooks]
    rw [heq, h1, hre, h2]
    simp [List.append_assoc]
  · have h1 := inj_nodecl (ruleText spa) hooks hN hR
    have hre : hooks ++ ("\nwebsite_route_rules = [".data ++ (ruleText spa ++ ",]".data))
        = (hooks ++ ['\n']) ++ (NAME ++ ([' '] ++ ('=' :: ([' ']
            ++ ('[' :: (((ruleText spa ++ [',']) ++ [']']) ++ ([] : List Char))))))) := by
      have hL : "\nwebsite_route_rules = [".data
          = '\n' :: (NAME ++ ([' '] ++ ('=' :: ([' '] ++ ['['])))) := rfl
      rw [hL]
      simp [List.append_assoc]
    have hG2 : ruleText spa ++ [','] ≠ [] := by
      intro hcon
      exact ruleText_ne_nil spa (List.append_eq_nil.1 hcon).1
    have hG2n : '\n' ∉ ruleText spa ++ [','] := by
      intro hcon
      rcases List.mem_append.1 hcon with h2 | h2
      · exact hnlrule h2
      · simp at h2
    have hNpre2 : hasSub NAME (hooks ++ ['\n']) = false :=
      hasSub_false_append_compose (frontFree_NAME_of_hasSub '\n' hN rfl (by decide))
        (by decide)
    have hRpre2 : hasSub RB (hooks ++ ['\n']) = false :=
      hasSub_false_append_compose (frontFree_RB_of_hasSub '\n' hR rfl (by decide))
        (by decide)
    have hRG2 : hasSub RB (ruleText spa ++ [',']) = false :=
      hasSub_false_append_compose (frontFree_RB_of_hasSub ',' hRrule rfl (by decide))
        (by decide)
    have h2 := inj_decl (ruleText spa) (hooks ++ ['\n']) [' '] [' ']
      (ruleText spa ++ [',']) [] (by decide) (by decide) hG2 hG2n (Or.inl rfl)
      hNpre2 (by decide) hRpre2 hRG2 (by decide)
    refine ⟨(hooks ++ ['\n']) ++ "website_route_rules = [".data, ",]".data, ?_⟩
    simp only [add_routing_rule_to_hooks]
    rw [h1, hre, h2]
    simp [List.append_assoc]

/-- C5 witness: injecting the `billing` rule twice into `"x = 1\n"`. -/
theorem C5_no_deduplication_witness :
    (hasSub RB (ruleText ("billing".data)) = false
      ∧ '\n' ∉ ruleText ("billing".data)
      ∧ (hasSub NAME ("x = 1\n".data) = false ∧ hasSub RB ("x = 1\n".data) = false))
    ∧ ∃ A B, add_routing_rule_to_hooks ("billing".data)
          (add_routing_rule_to_hooks ("billing".data) ("x = 1\n".data))
        = A ++ (ruleText ("billing".data)
            ++ (", ".data ++ (ruleText ("billing".data) ++ B))) :=
  ⟨⟨by decide, by decide, by decide, by decide⟩,
    C5_no_deduplication ("billing".data) ("x = 1\n".data)
      (by decide) (by decide) (Or.inr ⟨by decide, by decide⟩)⟩
